import Mathlib

/-!
Verification of the state-diffing core of the DESNZ publications monitor
(`monitor_gov_page.py`).

The monitored objects are JSON-like dictionaries.  An item is a dict with
a `url` key (identity) and further optional string fields; a state is a
dict with optional snapshot lists and page metadata; the change set
returned by `compare_states` is a dict whose key set differs between the
first-run and the ordinary branch, so its optional keys are modelled as
`Option` fields.

`compare_states` accesses `doc['url']` directly, which in Python raises
`KeyError` when the key is missing; the embedding therefore returns
`Except String Changes`, with `Except.error` standing for a raised
exception.  Python `dict` semantics (insertion order preserved, a repeated
key keeps its original position and takes the latest value) are modelled
by an explicit association list.
-/

set_option autoImplicit false

namespace Monitor

/-- One document or publication entry, as produced by the fetchers: a dict
whose fields may individually be absent (`none` models a missing key). -/
structure Item where
  url : Option String := none
  title : Option String := none
  date : Option String := none
  description : Option String := none
  typ : Option String := none
  found_on : Option String := none
  deriving DecidableEq, Repr

/-- The persisted state dict built in `main` (lines 383-389): each field is
optional, `none` modelling an absent key (e.g. an older state file that
does not track one of the snapshots). -/
structure State where
  specific_page_documents : Option (List Item) := none
  specific_page_title : Option String := none
  specific_page_last_updated : Option String := none
  desnz_publications : Option (List Item) := none
  check_time : Option String := none
  deriving DecidableEq, Repr

/-- Python truthiness of the state dict: `not previous` is true for `None`
and for an empty dict.  A `State` is truthy iff at least one key is
present. -/
def State.isTruthy (s : State) : Bool :=
  s.specific_page_documents.isSome || s.specific_page_title.isSome ||
    s.specific_page_last_updated.isSome || s.desnz_publications.isSome ||
    s.check_time.isSome

/-- The changes dict returned by `compare_states`.  The first-run branch
(lines 170-175) has a `message` key and no `page_updated` key; the other
branch (lines 177-201) has `page_updated` and no `message`; optional keys
are `Option` fields, `none` meaning the key is absent. -/
structure Changes where
  is_first_run : Bool
  new_documents : List Item := []
  new_publications : List Item := []
  page_updated : Option Bool := none
  message : Option String := none
  deriving DecidableEq, Repr

/-- A Python dict from URL strings to items: an association list whose
keys are unique and ordered by first insertion. -/
abbrev Dict := List (String × Item)

/-- Python dict assignment `d[k] = v`: an existing key keeps its position
and gets the new value, a fresh key is appended. -/
def dictInsert (d : Dict) (k : String) (v : Item) : Dict :=
  if d.any (fun p => p.1 == k) then
    d.map (fun p => if p.1 == k then (k, v) else p)
  else
    d ++ [(k, v)]

/-- Keys of a dict, in insertion order. -/
def dictKeys (d : Dict) : List String := d.map Prod.fst

/-- Python dict lookup `d[k]` (keys are unique, so the first hit is the
binding). -/
def dictFind (d : Dict) (k : String) : Option Item :=
  (d.find? (fun p => p.1 == k)).map Prod.snd

/-- The dict comprehension `{doc['url']: doc for doc in l}` (lines 185-186
and 192-193): processes the list left to right; a missing `url` key raises
`KeyError`. -/
def dictOfItemsAux (acc : Dict) : List Item → Except String Dict
  | [] => .ok acc
  | it :: rest =>
    match it.url with
    | none => .error "KeyError: url"
    | some u => dictOfItemsAux (dictInsert acc u it) rest

/-- `{doc['url']: doc for doc in l}` starting from the empty dict. -/
def dictOfItems (l : List Item) : Except String Dict := dictOfItemsAux [] l

/-- `new_urls = set(curr.keys()) - set(prev.keys())` followed by
`[curr[url] for url in new_urls]` (lines 188-189 and 195-196).  Python
iterates the set in an unspecified order; the embedding fixes the
insertion order of the current dict. -/
def newValues (prevd currd : Dict) : List Item :=
  ((dictKeys currd).filter
    (fun u => !((dictKeys prevd).contains u))).filterMap (dictFind currd)

/-- The first-run changes dict (lines 170-175). -/
def firstRunChanges (current : State) : Changes :=
  { is_first_run := true,
    new_documents := current.specific_page_documents.getD [],
    new_publications := current.desnz_publications.getD [],
    page_updated := none,
    message := some "First run - monitoring started" }

/-- `compare_states(previous, current)` (lines 167-201).  `previous` is
`None` or a loaded state dict; `if not previous` also sends an empty dict
to the first-run branch. -/
def compare_statesE : Option State → State → Except String Changes
  | none, current => .ok (firstRunChanges current)
  | some prev, current =>
    if !prev.isTruthy then .ok (firstRunChanges current)
    else do
      let prevDocs ← dictOfItems (prev.specific_page_documents.getD [])
      let currDocs ← dictOfItems (current.specific_page_documents.getD [])
      let prevPubs ← dictOfItems (prev.desnz_publications.getD [])
      let currPubs ← dictOfItems (current.desnz_publications.getD [])
      pure
        { is_first_run := false,
          new_documents := newValues prevDocs currDocs,
          new_publications := newValues prevPubs currPubs,
          page_updated := some
            (prev.specific_page_last_updated != current.specific_page_last_updated),
          message := none }

/-- Outcome of `send_email_alert(changes, current_state)` (lines 203-362):
`notConfigured` models the early `return False` when a credential is
missing (lines 205-207), `noChanges` the `return False` at lines 273-274,
and `attempted` that the function goes on to build the message and hand it
to SMTP (lines 276-358). -/
inductive EmailOutcome where
  | notConfigured
  | noChanges
  | attempted
  deriving DecidableEq, Repr

/-- The control flow of `send_email_alert` up to the SMTP call: credential
check first; the first-run branch always sends; otherwise
`has_changes = (changes['new_documents'] or changes['new_publications'])`
(line 271) decides — Python list truthiness, so `page_updated` is never
consulted. -/
def send_email_alert_decision (credsConfigured : Bool) (changes : Changes) :
    EmailOutcome :=
  if !credsConfigured then .notConfigured
  else if changes.is_first_run then .attempted
  else if changes.new_documents.isEmpty && changes.new_publications.isEmpty then
    .noChanges
  else .attempted

/-- The alert decision of `main` (lines 398-422): email on first run,
otherwise only when `new_documents` or `new_publications` is non-empty;
`page_updated` is never consulted. -/
def main_attempts_alert (changes : Changes) : Bool :=
  changes.is_first_run || !changes.new_documents.isEmpty ||
    !changes.new_publications.isEmpty

/-- The `seen` loop of `fetch_desnz_publications` (lines 138-146): keep a
publication iff its URL was not seen before.  Fetched publications always
carry the `url` key, modelled by keying on the optional field. -/
def removeDuplicatesAux (seen : List (Option String)) : List Item → List Item
  | [] => []
  | pub :: rest =>
    if seen.contains pub.url then removeDuplicatesAux seen rest
    else pub :: removeDuplicatesAux (pub.url :: seen) rest

/-- Duplicate removal in `fetch_desnz_publications` (lines 138-146). -/
def removeDuplicates (pubs : List Item) : List Item := removeDuplicatesAux [] pubs

/-- Every item of the list carries the `url` key.  This is the data-model
invariant (an Item is identified by its URL); `compare_states` raises
`KeyError` on items violating it. -/
def itemsHaveUrl (l : List Item) : Bool := l.all (fun it => it.url.isSome)

/-- Every item of every snapshot list of the state carries the `url` key. -/
def State.wellFormed (s : State) : Bool :=
  itemsHaveUrl (s.specific_page_documents.getD []) &&
    itemsHaveUrl (s.desnz_publications.getD [])

/-- Well-formedness of the optional previous state (`None` is fine). -/
def optStateWellFormed : Option State → Bool
  | none => true
  | some s => s.wellFormed

/-- Replace an item title according to `t` (used to state that the diff
never looks at the titles of previous items). -/
def retitleItem (t : Item → Option String) (it : Item) : Item :=
  { it with title := t it }

/-- Retitle every item of every snapshot list of a state. -/
def retitleState (t : Item → Option String) (s : State) : State :=
  { s with
    specific_page_documents :=
      s.specific_page_documents.map (List.map (retitleItem t)),
    desnz_publications :=
      s.desnz_publications.map (List.map (retitleItem t)) }

/-- Proof helper: the association list a URL-keyed dict comprehension
produces when the input items have pairwise distinct URLs. -/
def assocOf : List Item → Dict
  | [] => []
  | it :: rest => (it.url.getD "", it) :: assocOf rest

end Monitor

namespace Monitor

/-- The membership test used by `dictInsert` agrees with `List.contains`
on the key list. -/
theorem any_fst_beq_eq_contains (d : Dict) (k : String) :
    (d.any (fun p => p.1 == k)) = (dictKeys d).contains k := by
  rw [Bool.eq_iff_iff]
  simp [List.any_eq_true, dictKeys, List.mem_map, List.elem_iff]

/-- Keys after a dict assignment: unchanged if the key is present,
appended otherwise. -/
theorem dictKeys_dictInsert (d : Dict) (k : String) (v : Item) :
    dictKeys (dictInsert d k v) =
      if (dictKeys d).contains k then dictKeys d else dictKeys d ++ [k] := by
  unfold dictInsert
  rw [any_fst_beq_eq_contains]
  split
  · simp only [dictKeys, List.map_map]
    refine List.map_congr_left ?_
    intro p _
    by_cases hpk : p.1 = k
    · simp [hpk]
    · simp [hpk]
  · simp [dictKeys]

/-- Keys of the dict built by the comprehension: those of the accumulator
plus the URLs of the processed items. -/
theorem mem_dictKeys_dictOfItemsAux (l : List Item) :
    ∀ (acc d : Dict), dictOfItemsAux acc l = .ok d →
      ∀ u, u ∈ dictKeys d ↔ u ∈ dictKeys acc ∨ some u ∈ l.map Item.url := by
  induction l with
  | nil =>
    intro acc d h u
    simp only [dictOfItemsAux, Except.ok.injEq] at h
    subst h
    simp
  | cons it rest ih =>
    intro acc d h u
    unfold dictOfItemsAux at h
    cases hu : it.url with
    | none => rw [hu] at h; cases h
    | some v =>
      rw [hu] at h
      rw [ih (dictInsert acc v it) d h u, dictKeys_dictInsert]
      by_cases hc : (dictKeys acc).contains v = true
      · rw [if_pos hc]
        have hv : v ∈ dictKeys acc := List.elem_iff.mp hc
        simp only [List.map_cons, hu, List.mem_cons, Option.some.injEq]
        constructor
        · rintro (h1 | h1)
          · exact Or.inl h1
          · exact Or.inr (Or.inr h1)
        · rintro (h1 | rfl | h1)
          · exact Or.inl h1
          · exact Or.inl hv
          · exact Or.inr h1
      · rw [if_neg hc]
        simp only [List.map_cons, hu, List.mem_cons, Option.some.injEq,
          List.mem_append, List.mem_singleton]
        tauto

/-- The comprehension succeeds whenever every item carries the `url`
key. -/
theorem dictOfItemsAux_isOk (l : List Item) (hl : itemsHaveUrl l = true) :
    ∀ acc, ∃ d, dictOfItemsAux acc l = .ok d := by
  induction l with
  | nil => intro acc; exact ⟨acc, rfl⟩
  | cons it rest ih =>
    intro acc
    simp only [itemsHaveUrl, List.all_cons, Bool.and_eq_true] at hl
    obtain ⟨u, hu⟩ := Option.isSome_iff_exists.mp hl.1
    obtain ⟨d, hd⟩ := ih hl.2 (dictInsert acc u it)
    exact ⟨d, by simp [dictOfItemsAux, hu, hd]⟩

/-- On items with pairwise distinct, present URLs the comprehension is the
plain association list, appended to the accumulator. -/
theorem dictOfItemsAux_assoc (l : List Item) :
    ∀ acc : Dict, (l.map Item.url).Nodup →
      (∀ it ∈ l, it.url.isSome = true) →
      (∀ it ∈ l, ∀ u, it.url = some u → u ∉ dictKeys acc) →
      dictOfItemsAux acc l = .ok (acc ++ assocOf l) := by
  induction l with
  | nil => intro acc _ _ _; simp [dictOfItemsAux, assocOf]
  | cons it rest ih =>
    intro acc hnd hwf hdisj
    obtain ⟨u, hu⟩ :=
      Option.isSome_iff_exists.mp (hwf it (List.mem_cons_self it rest))
    have hnotin : u ∉ dictKeys acc := hdisj it (List.mem_cons_self it rest) u hu
    have hins : dictInsert acc u it = acc ++ [(u, it)] := by
      unfold dictInsert
      rw [any_fst_beq_eq_contains, if_neg]
      intro hc
      exact hnotin (List.elem_iff.mp hc)
    have hndrest : (rest.map Item.url).Nodup := by
      simpa using hnd.of_cons
    have hhead : some u ∉ rest.map Item.url := by
      have h := hnd
      rw [List.map_cons] at h
      have := (List.nodup_cons.mp h).1
      rwa [hu] at this
    have hdisjrest : ∀ jt ∈ rest, ∀ v, jt.url = some v →
        v ∉ dictKeys (acc ++ [(u, it)]) := by
      intro jt hjt v hv hvmem
      simp only [dictKeys, List.map_append, List.mem_append, List.map_cons,
        List.map_nil, List.mem_singleton] at hvmem
      rcases hvmem with hvmem | rfl
      · exact hdisj jt (List.mem_cons_of_mem it hjt) v hv hvmem
      · exact hhead (by simpa [hv] using List.mem_map_of_mem Item.url hjt)
    have := ih (acc ++ [(u, it)]) hndrest
      (fun jt hjt => hwf jt (List.mem_cons_of_mem it hjt)) hdisjrest
    simp only [dictOfItemsAux, hu, hins, this, assocOf, Except.ok.injEq]
    simp [hu, List.append_assoc]

/-- Specialisation of `dictOfItemsAux_assoc` to the empty accumulator. -/
theorem dictOfItems_assoc (l : List Item)
    (hnd : (l.map Item.url).Nodup) (hwf : ∀ it ∈ l, it.url.isSome = true) :
    dictOfItems l = .ok (assocOf l) := by
  have := dictOfItemsAux_assoc l [] hnd hwf (by intro it _ u _ h; simp [dictKeys] at h)
  simpa [dictOfItems] using this

/-- Keys of the plain association list. -/
theorem dictKeys_assocOf (l : List Item) :
    dictKeys (assocOf l) = l.map (fun it => it.url.getD "") := by
  induction l with
  | nil => rfl
  | cons it rest ih =>
    simp only [assocOf, dictKeys, List.map_cons]
    rw [show List.map Prod.fst (assocOf rest) = dictKeys (assocOf rest) from rfl, ih]

/-- Lookups skip a head binding with a different key. -/
theorem filterMap_dictFind_cons (u : String) (it : Item) (d : Dict)
    (ks : List String) (h : ∀ k ∈ ks, k ≠ u) :
    ks.filterMap (dictFind ((u, it) :: d)) = ks.filterMap (dictFind d) := by
  induction ks with
  | nil => rfl
  | cons k ks ih =>
    have hk : (u == k) = false := by
      simp only [beq_eq_false_iff_ne, ne_eq]
      exact fun e => h k (List.mem_cons_self k ks) e.symm
    simp only [List.filterMap_cons]
    rw [ih (fun k2 hk2 => h k2 (List.mem_cons_of_mem k hk2))]
    have : dictFind ((u, it) :: d) k = dictFind d k := by
      simp [dictFind, List.find?_cons, hk]
    rw [this]

/-- On items with pairwise distinct, present URLs, the new-URL computation
of `compare_states` is a filter of the current item list: exactly the
current items whose URL does not occur among the previous keys, in current
order. -/
theorem newValues_assocOf (prevd : Dict) (l : List Item)
    (hnd : (l.map Item.url).Nodup) (hwf : ∀ it ∈ l, it.url.isSome = true) :
    newValues prevd (assocOf l) =
      l.filter (fun it => !((dictKeys prevd).contains (it.url.getD ""))) := by
  induction l with
  | nil => rfl
  | cons it rest ih =>
    obtain ⟨u, hu⟩ :=
      Option.isSome_iff_exists.mp (hwf it (List.mem_cons_self it rest))
    have hndrest : (rest.map Item.url).Nodup := by
      rw [List.map_cons] at hnd; exact (List.nodup_cons.mp hnd).2
    have hhead : some u ∉ rest.map Item.url := by
      have h := hnd
      rw [List.map_cons] at h
      have := (List.nodup_cons.mp h).1
      rwa [hu] at this
    have hwfrest : ∀ jt ∈ rest, jt.url.isSome = true :=
      fun jt hjt => hwf jt (List.mem_cons_of_mem it hjt)
    have hrestkeys : ∀ k ∈ (dictKeys (assocOf rest)).filter
        (fun v => !((dictKeys prevd).contains v)), k ≠ u := by
      intro k hk
      have hk2 : k ∈ dictKeys (assocOf rest) := (List.mem_filter.mp hk).1
      rw [dictKeys_assocOf] at hk2
      obtain ⟨jt, hjt, hjk⟩ := List.mem_map.mp hk2
      obtain ⟨v, hv⟩ := Option.isSome_iff_exists.mp (hwfrest jt hjt)
      intro rfl2
      apply hhead
      have : jt.url = some u := by
        rw [hv]; rw [hv] at hjk; simp at hjk; rw [← rfl2, hjk]
      rw [← this]
      exact List.mem_map_of_mem Item.url hjt
    have hfindhead : dictFind ((u, it) :: assocOf rest) u = some it := by
      simp [dictFind, List.find?_cons]
    have hgd : it.url.getD "" = u := by rw [hu]; rfl
    have hcons : assocOf (it :: rest) = (u, it) :: assocOf rest := by
      simp [assocOf, hgd]
    have hkeys : dictKeys (assocOf (it :: rest)) = u :: dictKeys (assocOf rest) := by
      rw [hcons]; rfl
    by_cases hq : ((dictKeys prevd).contains u) = true
    · have hmem : u ∈ dictKeys prevd := List.elem_iff.mp hq
      have hfilter : (dictKeys (assocOf (it :: rest))).filter
          (fun v => !((dictKeys prevd).contains v)) =
          (dictKeys (assocOf rest)).filter
            (fun v => !((dictKeys prevd).contains v)) := by
        rw [hkeys, List.filter_cons]
        simp [hq, hmem]
      have hL : newValues prevd (assocOf (it :: rest)) =
          newValues prevd (assocOf rest) := by
        unfold newValues
        rw [hfilter, hcons,
          filterMap_dictFind_cons u it (assocOf rest) _ hrestkeys]
      rw [hL, ih hndrest hwfrest, List.filter_cons]
      simp [hgd, hmem]
    · rw [Bool.not_eq_true] at hq
      have hnmem : u ∉ dictKeys prevd := by
        intro hmem
        have h2 : (dictKeys prevd).contains u = true := List.elem_iff.mpr hmem
        rw [h2] at hq
        cases hq
      have hfilter : (dictKeys (assocOf (it :: rest))).filter
          (fun v => !((dictKeys prevd).contains v)) =
          u :: (dictKeys (assocOf rest)).filter
            (fun v => !((dictKeys prevd).contains v)) := by
        rw [hkeys, List.filter_cons]
        simp [hq, hnmem]
      have hL : newValues prevd (assocOf (it :: rest)) =
          it :: newValues prevd (assocOf rest) := by
        unfold newValues
        rw [hfilter, hcons]
        simp only [List.filterMap_cons, hfindhead]
        rw [filterMap_dictFind_cons u it (assocOf rest) _ hrestkeys]
      rw [hL, ih hndrest hwfrest, List.filter_cons]
      simp [hgd, hnmem]

/-- If every current key is also a previous key, nothing is new. -/
theorem newValues_eq_nil (prevd currd : Dict)
    (h : ∀ u ∈ dictKeys currd, u ∈ dictKeys prevd) :
    newValues prevd currd = [] := by
  unfold newValues
  have hnil : (dictKeys currd).filter
      (fun u => !((dictKeys prevd).contains u)) = [] := by
    rw [List.filter_eq_nil_iff]
    intro u hu
    simp [h u hu]
  rw [hnil]
  rfl

/-- `newValues` consults the previous dict only through its key list. -/
theorem newValues_keys_congr (prevd prevd2 currd : Dict)
    (h : dictKeys prevd = dictKeys prevd2) :
    newValues prevd currd = newValues prevd2 currd := by
  unfold newValues
  rw [h]

/-- Binding two `Except` computations that agree up to the dict keys with
continuations that only consult the keys gives equal results. -/
theorem bind_keys_congr (r r2 : Except String Dict)
    (h : Except.map dictKeys r = Except.map dictKeys r2)
    (f g : Dict → Except String Changes)
    (hfg : ∀ d d2, dictKeys d = dictKeys d2 → f d = g d2) :
    r.bind f = r2.bind g := by
  cases r with
  | error e =>
    cases r2 with
    | error e2 =>
      simp only [Except.map] at h
      cases h
      rfl
    | ok d2 => simp [Except.map] at h
  | ok d =>
    cases r2 with
    | error e2 => simp [Except.map] at h
    | ok d2 =>
      simp only [Except.map, Except.ok.injEq] at h
      simpa [Except.bind] using hfg d d2 h

/-- Pointwise-equal continuations under the same `Except` bind. -/
theorem bind_congr_fun (r : Except String Dict)
    (f g : Dict → Except String Changes) (h : ∀ d, f d = g d) :
    r.bind f = r.bind g := by
  cases r with
  | error e => rfl
  | ok d => simpa [Except.bind] using h d

/-- Retitling the items does not change which URLs the dict comprehension
assigns, nor whether it raises. -/
theorem dictOfItemsAux_retitle_keys (t : Item → Option String) (l : List Item) :
    ∀ acc acc2 : Dict, dictKeys acc = dictKeys acc2 →
      Except.map dictKeys (dictOfItemsAux acc (l.map (retitleItem t))) =
        Except.map dictKeys (dictOfItemsAux acc2 l) := by
  induction l with
  | nil =>
    intro acc acc2 h
    simp [dictOfItemsAux, Except.map, h]
  | cons it rest ih =>
    intro acc acc2 h
    have hurl : (retitleItem t it).url = it.url := rfl
    cases hu : it.url with
    | none => simp [dictOfItemsAux, hurl, hu, Except.map]
    | some u =>
      simp only [List.map_cons, dictOfItemsAux, hurl, hu]
      refine ih (dictInsert acc u (retitleItem t it)) (dictInsert acc2 u it) ?_
      rw [dictKeys_dictInsert, dictKeys_dictInsert, h]

/-- Unfolding of the ordinary branch of `compare_states` when all four
dict comprehensions succeed. -/
theorem compare_statesE_ok (prev curr : State) (htr : prev.isTruthy = true)
    (pd cd pp cp : Dict)
    (h1 : dictOfItems (prev.specific_page_documents.getD []) = .ok pd)
    (h2 : dictOfItems (curr.specific_page_documents.getD []) = .ok cd)
    (h3 : dictOfItems (prev.desnz_publications.getD []) = .ok pp)
    (h4 : dictOfItems (curr.desnz_publications.getD []) = .ok cp) :
    compare_statesE (some prev) curr =
      .ok { is_first_run := false,
            new_documents := newValues pd cd,
            new_publications := newValues pp cp,
            page_updated := some
              (prev.specific_page_last_updated != curr.specific_page_last_updated),
            message := none } := by
  simp only [compare_statesE]
  rw [htr, h1, h2, h3, h4]
  rfl

/-- C4 (confirmed): `compare_states(None, current)` returns the first-run
change set: `is_first_run` true, `new_documents` and `new_publications`
exactly the item lists of the current state (empty default when a
snapshot key is absent), no changed-item detection and no error for any
current state. -/
theorem first_run_baseline (current : State) :
    compare_statesE none current =
      .ok { is_first_run := true,
            new_documents := current.specific_page_documents.getD [],
            new_publications := current.desnz_publications.getD [],
            page_updated := none,
            message := some "First run - monitoring started" } := rfl

/-- C10 (confirmed): a present-but-empty previous state dict is falsy, so
`compare_states({}, current)` takes the first-run branch: the result is
identical to the absent-previous case, `is_first_run` is true, every
current item is reported as new, and the change set carries no
`page_updated` key. -/
theorem empty_previous_state_is_first_run (current : State) :
    compare_statesE (some ({} : State)) current = compare_statesE none current ∧
      compare_statesE (some ({} : State)) current =
        .ok { is_first_run := true,
              new_documents := current.specific_page_documents.getD [],
              new_publications := current.desnz_publications.getD [],
              page_updated := none,
              message := some "First run - monitoring started" } :=
  ⟨rfl, rfl⟩

/-- C2 counterexample: a change set with `page_updated = true` and no new
items is treated by `send_email_alert` as nothing-to-report (it is a no-op
returning false at line 274 even with credentials configured), and `main`
does not call the notifier for it either — contradicting the claim that
such a change set must trigger a send attempt. -/
theorem page_updated_alone_not_reported :
    send_email_alert_decision true
        { is_first_run := false, new_documents := [], new_publications := [],
          page_updated := some true, message := none } =
      EmailOutcome.noChanges ∧
    main_attempts_alert
        { is_first_run := false, new_documents := [], new_publications := [],
          page_updated := some true, message := none } = false ∧
    EmailOutcome.noChanges ≠ EmailOutcome.attempted := by
  refine ⟨rfl, rfl, ?_⟩
  decide

/-- C2 (corrected): with credentials configured, `send_email_alert`
attempts a send exactly when `is_first_run` is true or `new_documents` or
`new_publications` is non-empty, and is a no-op (returns false) exactly
when it is not the first run and both lists are empty — `page_updated`
plays no role in the trigger condition, and `main` uses the same
condition. -/
theorem notifier_trigger_condition (ch : Changes) :
    (send_email_alert_decision true ch = EmailOutcome.attempted ↔
      ch.is_first_run = true ∨ ch.new_documents ≠ [] ∨ ch.new_publications ≠ []) ∧
    (send_email_alert_decision true ch = EmailOutcome.noChanges ↔
      ch.is_first_run = false ∧ ch.new_documents = [] ∧ ch.new_publications = []) ∧
    (main_attempts_alert ch = true ↔
      ch.is_first_run = true ∨ ch.new_documents ≠ [] ∨ ch.new_publications ≠ []) := by
  unfold send_email_alert_decision main_attempts_alert
  cases hf : ch.is_first_run
  · cases hd : ch.new_documents <;> cases hp : ch.new_publications <;>
      simp [hf, hd, hp]
  · simp [hf]

/-- C1 counterexample: for a URL whose title changed from "Old" to "New",
the change set returned by `compare_states` is exactly the no-change
result — it contains no changed-item information at all and coincides with
the change set computed from a previous state that already had the new
title, refuting the claim that exactly one `changedItems` entry is
produced. -/
theorem rename_produces_no_entry :
    compare_statesE
        (some { specific_page_documents :=
                  some [{ url := some "/d.pdf", title := some "Old" }],
                desnz_publications := some [] })
        { specific_page_documents :=
            some [{ url := some "/d.pdf", title := some "New" }],
          desnz_publications := some [] } =
      compare_statesE
        (some { specific_page_documents :=
                  some [{ url := some "/d.pdf", title := some "New" }],
                desnz_publications := some [] })
        { specific_page_documents :=
            some [{ url := some "/d.pdf", title := some "New" }],
          desnz_publications := some [] } ∧
    compare_statesE
        (some { specific_page_documents :=
                  some [{ url := some "/d.pdf", title := some "Old" }],
                desnz_publications := some [] })
        { specific_page_documents :=
            some [{ url := some "/d.pdf", title := some "New" }],
          desnz_publications := some [] } =
      .ok { is_first_run := false, new_documents := [], new_publications := [],
            page_updated := some false, message := none } :=
  ⟨rfl, rfl⟩

/-- C1 (corrected): `compare_states` performs no rename detection at all:
its change set has no changed-items key, and the result is unchanged under
any retitling of the previous state's items — titles of items present on
both sides are never compared, whether equal or different. -/
theorem no_rename_detection (t : Item → Option String) (prev curr : State) :
    compare_statesE (some (retitleState t prev)) curr =
      compare_statesE (some prev) curr := by
  have htr : (retitleState t prev).isTruthy = prev.isTruthy := by
    unfold retitleState State.isTruthy
    simp [Option.isSome_map']
  have hdocs : (retitleState t prev).specific_page_documents.getD [] =
      (prev.specific_page_documents.getD []).map (retitleItem t) := by
    cases h : prev.specific_page_documents <;> simp [retitleState, h]
  have hpubs : (retitleState t prev).desnz_publications.getD [] =
      (prev.desnz_publications.getD []).map (retitleItem t) := by
    cases h : prev.desnz_publications <;> simp [retitleState, h]
  have hlu : (retitleState t prev).specific_page_last_updated =
      prev.specific_page_last_updated := rfl
  simp only [compare_statesE, htr]
  cases htruthy : prev.isTruthy
  · rfl
  · simp only [Bool.not_true, Bool.false_eq_true, if_false]
    refine bind_keys_congr _ _ ?_ _ _ ?_
    · rw [hdocs]
      exact dictOfItemsAux_retitle_keys t _ [] [] rfl
    · intro d d2 hk
      refine bind_congr_fun _ _ _ ?_
      intro cd
      refine bind_keys_congr _ _ ?_ _ _ ?_
      · rw [hpubs]
        exact dictOfItemsAux_retitle_keys t _ [] [] rfl
      · intro p p2 hk2
        refine bind_congr_fun _ _ _ ?_
        intro cp
        rw [newValues_keys_congr d d2 cd hk, newValues_keys_congr p p2 cp hk2,
          hlu]

/-- C3 counterexample: a current snapshot with two items sharing a URL is
collapsed by `compare_states` to the *last* occurrence, not the first: the
retained item (title "Second", type "document") differs from the first
occurrence (title "First", type "attachment"), for both the document and
the publication collections. -/
theorem duplicate_kept_is_last :
    compare_statesE
        (some { specific_page_documents := some [],
                desnz_publications := some [] })
        { specific_page_documents :=
            some [{ url := some "/x.pdf", title := some "First",
                    typ := some "attachment" },
                  { url := some "/x.pdf", title := some "Second",
                    typ := some "document" }],
          desnz_publications :=
            some [{ url := some "/x.pdf", title := some "First",
                    typ := some "attachment" },
                  { url := some "/x.pdf", title := some "Second",
                    typ := some "document" }] } =
      .ok { is_first_run := false,
            new_documents := [{ url := some "/x.pdf", title := some "Second",
                                typ := some "document" }],
            new_publications := [{ url := some "/x.pdf", title := some "Second",
                                   typ := some "document" }],
            page_updated := some false, message := none } ∧
    ({ url := some "/x.pdf", title := some "Second",
       typ := some "document" } : Item) ≠
      { url := some "/x.pdf", title := some "First", typ := some "attachment" } := by
  refine ⟨rfl, ?_⟩
  decide

/-- C3 (corrected): duplicate URLs within one snapshot do collapse to a
single item before diffing, but the two collapse sites disagree on which
occurrence survives: the URL-keyed dicts of `compare_states` retain the
*last* occurrence (for the document and the publication collection alike),
while the explicit dedup loop of `fetch_desnz_publications` retains the
first occurrence. -/
theorem duplicate_collapse_behaviour (u : String) (it1 it2 : Item)
    (h1 : it1.url = some u) (h2 : it2.url = some u) :
    compare_statesE
        (some { specific_page_documents := some [],
                desnz_publications := some [] })
        { specific_page_documents := some [it1, it2],
          desnz_publications := some [it1, it2] } =
      .ok { is_first_run := false, new_documents := [it2],
            new_publications := [it2], page_updated := some false,
            message := none } ∧
    removeDuplicates [it1, it2] = [it1] := by
  constructor
  · have hd : dictOfItems [it1, it2] = .ok [(u, it2)] := by
      simp [dictOfItems, dictOfItemsAux, dictInsert, h1, h2]
    have hstep := compare_statesE_ok
      { specific_page_documents := some [], desnz_publications := some [] }
      { specific_page_documents := some [it1, it2],
        desnz_publications := some [it1, it2] }
      rfl [] [(u, it2)] [] [(u, it2)] rfl hd rfl hd
    rw [hstep]
    have hnv : newValues [] [(u, it2)] = [it2] := by
      simp [newValues, dictKeys, dictFind, List.find?_cons]
    rw [hnv]
    rfl
  · simp [removeDuplicates, removeDuplicatesAux, h1, h2]

/-- Witness for C3: the collapse behaviour at a concrete duplicated URL. -/
theorem duplicate_collapse_behaviour_witness :
    compare_statesE
        (some { specific_page_documents := some [],
                desnz_publications := some [] })
        { specific_page_documents :=
            some [{ url := some "/w.pdf", title := some "WA" },
                  { url := some "/w.pdf", title := some "WB" }],
          desnz_publications :=
            some [{ url := some "/w.pdf", title := some "WA" },
                  { url := some "/w.pdf", title := some "WB" }] } =
      .ok { is_first_run := false,
            new_documents := [{ url := some "/w.pdf", title := some "WB" }],
            new_publications := [{ url := some "/w.pdf", title := some "WB" }],
            page_updated := some false, message := none } ∧
    removeDuplicates [{ url := some "/w.pdf", title := some "WA" },
                      { url := some "/w.pdf", title := some "WB" }] =
      [{ url := some "/w.pdf", title := some "WA" }] :=
  duplicate_collapse_behaviour "/w.pdf"
    { url := some "/w.pdf", title := some "WA" }
    { url := some "/w.pdf", title := some "WB" } rfl rfl

/-- C7 (confirmed): diffing a truthy well-formed state against itself
yields no new documents, no new publications, no changed items (the change
set carries none) and `page_updated = false`. -/
theorem diff_idempotent (S : State) (htr : S.isTruthy = true)
    (hwf : S.wellFormed = true) :
    compare_statesE (some S) S =
      .ok { is_first_run := false, new_documents := [], new_publications := [],
            page_updated := some false, message := none } := by
  simp only [State.wellFormed, Bool.and_eq_true] at hwf
  obtain ⟨dd, hdd⟩ := dictOfItemsAux_isOk _ hwf.1 []
  obtain ⟨pp, hpp⟩ := dictOfItemsAux_isOk _ hwf.2 []
  rw [compare_statesE_ok S S htr dd dd pp pp hdd hdd hpp hpp,
    newValues_eq_nil dd dd (fun _ hu => hu),
    newValues_eq_nil pp pp (fun _ hu => hu)]
  simp

/-- Witness for C7 at a concrete state. -/
theorem diff_idempotent_witness :
    ({ specific_page_documents := some [{ url := some "/a.pdf",
                                          title := some "Report A" }],
       specific_page_last_updated := some "1 July 2025",
       desnz_publications := some [{ url := some "/p", title := some "P",
                                     date := some "2 July 2025" }],
       check_time := some "t" } : State).isTruthy = true ∧
    compare_statesE
        (some { specific_page_documents := some [{ url := some "/a.pdf",
                                                   title := some "Report A" }],
                specific_page_last_updated := some "1 July 2025",
                desnz_publications := some [{ url := some "/p",
                                              title := some "P",
                                              date := some "2 July 2025" }],
                check_time := some "t" })
        { specific_page_documents := some [{ url := some "/a.pdf",
                                             title := some "Report A" }],
          specific_page_last_updated := some "1 July 2025",
          desnz_publications := some [{ url := some "/p", title := some "P",
                                        date := some "2 July 2025" }],
          check_time := some "t" } =
      .ok { is_first_run := false, new_documents := [], new_publications := [],
            page_updated := some false, message := none } :=
  ⟨by decide, diff_idempotent _ (by decide) (by decide)⟩

/-- C6 (confirmed): when the previous snapshot has URL set `{a, b}` and
every current item has URL `a`, the diff reports nothing at all: no new
documents, no new publications, `page_updated = false` — the removed item
`b` never appears in the change set in any form. -/
theorem removed_items_invisible (a b : String) (prevList currList : List Item)
    (hprev : ∀ it ∈ prevList, it.url = some a ∨ it.url = some b)
    (hpa : ∃ it ∈ prevList, it.url = some a)
    (_hpb : ∃ it ∈ prevList, it.url = some b)
    (hcurr : ∀ it ∈ currList, it.url = some a) :
    compare_statesE
        (some { specific_page_documents := some prevList,
                desnz_publications := some [] })
        { specific_page_documents := some currList,
          desnz_publications := some [] } =
      .ok { is_first_run := false, new_documents := [], new_publications := [],
            page_updated := some false, message := none } := by
  have hwfp : itemsHaveUrl prevList = true := by
    unfold itemsHaveUrl
    rw [List.all_eq_true]
    intro it hit
    rcases hprev it hit with h | h <;> simp [h]
  have hwfc : itemsHaveUrl currList = true := by
    unfold itemsHaveUrl
    rw [List.all_eq_true]
    intro it hit
    simp [hcurr it hit]
  obtain ⟨pd, hpd⟩ := dictOfItemsAux_isOk prevList hwfp []
  obtain ⟨cd, hcd⟩ := dictOfItemsAux_isOk currList hwfc []
  rw [compare_statesE_ok
    { specific_page_documents := some prevList, desnz_publications := some [] }
    { specific_page_documents := some currList, desnz_publications := some [] }
    rfl pd cd [] [] hpd hcd rfl rfl]
  have hsub : ∀ u ∈ dictKeys cd, u ∈ dictKeys pd := by
    intro u hu
    rcases (mem_dictKeys_dictOfItemsAux currList [] cd hcd u).mp hu with h | h
    · simp [dictKeys] at h
    · obtain ⟨it, hit, hitu⟩ := List.mem_map.mp h
      have hua : u = a := by
        rw [hcurr it hit] at hitu
        exact (Option.some.injEq _ _ ▸ hitu).symm
      subst hua
      obtain ⟨jt, hjt, hjta⟩ := hpa
      refine (mem_dictKeys_dictOfItemsAux prevList [] pd hpd u).mpr (Or.inr ?_)
      rw [← hjta]
      exact List.mem_map_of_mem Item.url hjt
  rw [newValues_eq_nil pd cd hsub]
  rfl

/-- Witness for C6: previous `{/a, /b}`, current `{/a}`. -/
theorem removed_items_invisible_witness :
    compare_statesE
        (some { specific_page_documents :=
                  some [{ url := some "/a", title := some "A" },
                        { url := some "/b", title := some "B" }],
                desnz_publications := some [] })
        { specific_page_documents := some [{ url := some "/a",
                                             title := some "A" }],
          desnz_publications := some [] } =
      .ok { is_first_run := false, new_documents := [], new_publications := [],
            page_updated := some false, message := none } :=
  removed_items_invisible "/a" "/b"
    [{ url := some "/a", title := some "A" },
     { url := some "/b", title := some "B" }]
    [{ url := some "/a", title := some "A" }]
    (by decide) (by decide) (by decide) (by decide)

/-- C5 (confirmed): with previous URL set `{a, b}` and the current
snapshot any reordering of three items with distinct URLs `a`, `b`, `c`,
the diff reports exactly the singleton list holding the current item with
URL `c`, independently of the ordering of either input list. -/
theorem new_item_detection (a b c : String) (ia ib ic : Item)
    (prevList currList : List Item)
    (hia : ia.url = some a) (hib : ib.url = some b) (hic : ic.url = some c)
    (hab : a ≠ b) (hac : a ≠ c) (hbc : b ≠ c)
    (hprev : ∀ it ∈ prevList, it.url = some a ∨ it.url = some b)
    (hpa : ∃ it ∈ prevList, it.url = some a)
    (hpb : ∃ it ∈ prevList, it.url = some b)
    (hperm : currList.Perm [ia, ib, ic]) :
    compare_statesE
        (some { specific_page_documents := some prevList,
                desnz_publications := some [] })
        { specific_page_documents := some currList,
          desnz_publications := some [] } =
      .ok { is_first_run := false, new_documents := [ic],
            new_publications := [], page_updated := some false,
            message := none } := by
  have hwfp : itemsHaveUrl prevList = true := by
    unfold itemsHaveUrl
    rw [List.all_eq_true]
    intro it hit
    rcases hprev it hit with h | h <;> simp [h]
  obtain ⟨pd, hpd⟩ := dictOfItemsAux_isOk prevList hwfp []
  have hwfc : ∀ it ∈ currList, it.url.isSome = true := by
    intro it hit
    have hmem : it ∈ [ia, ib, ic] := hperm.subset hit
    simp only [List.mem_cons, List.mem_singleton, List.not_mem_nil] at hmem
    rcases hmem with rfl | rfl | rfl | h
    · simp [hia]
    · simp [hib]
    · simp [hic]
    · cases h
  have hndc : (currList.map Item.url).Nodup := by
    refine List.Perm.nodup (List.Perm.symm (hperm.map Item.url)) ?_
    simp [hia, hib, hic, hab, hac, hbc]
  have hcd : dictOfItems currList = .ok (assocOf currList) :=
    dictOfItems_assoc currList hndc hwfc
  rw [compare_statesE_ok
    { specific_page_documents := some prevList, desnz_publications := some [] }
    { specific_page_documents := some currList, desnz_publications := some [] }
    rfl pd (assocOf currList) [] [] hpd hcd rfl rfl]
  rw [newValues_assocOf pd currList hndc hwfc]
  have hkey : ∀ u, u ∈ dictKeys pd ↔ some u ∈ prevList.map Item.url := by
    intro u
    rw [mem_dictKeys_dictOfItemsAux prevList [] pd hpd u]
    simp [dictKeys]
  have hqa : (dictKeys pd).contains a = true := by
    obtain ⟨jt, hjt, hjta⟩ := hpa
    refine List.elem_iff.mpr ((hkey a).mpr ?_)
    rw [← hjta]
    exact List.mem_map_of_mem Item.url hjt
  have hqb : (dictKeys pd).contains b = true := by
    obtain ⟨jt, hjt, hjtb⟩ := hpb
    refine List.elem_iff.mpr ((hkey b).mpr ?_)
    rw [← hjtb]
    exact List.mem_map_of_mem Item.url hjt
  have hqc : (dictKeys pd).contains c = false := by
    by_contra hcon
    rw [Bool.not_eq_false] at hcon
    have := (hkey c).mp (List.elem_iff.mp hcon)
    obtain ⟨jt, hjt, hjtc⟩ := List.mem_map.mp this
    rcases hprev jt hjt with h | h <;> rw [h] at hjtc
    · exact hac (Option.some.injEq _ _ ▸ hjtc)
    · exact hbc (Option.some.injEq _ _ ▸ hjtc)
  have hfilter3 : [ia, ib, ic].filter
      (fun it => !((dictKeys pd).contains (it.url.getD ""))) = [ic] := by
    have ga : ia.url.getD "" = a := by rw [hia]; rfl
    have gb : ib.url.getD "" = b := by rw [hib]; rfl
    have gc : ic.url.getD "" = c := by rw [hic]; rfl
    simp only [List.filter, ga, gb, gc, hqa, hqb, hqc, Bool.not_true,
      Bool.not_false]
  have hsingle : currList.filter
      (fun it => !((dictKeys pd).contains (it.url.getD ""))) = [ic] := by
    refine List.Perm.eq_singleton ?_
    rw [← hfilter3]
    exact hperm.filter _
  rw [hsingle]
  rfl

/-- Witness for C5: previous `{/a, /b}`, current a reordering of
`{/a, /b, /c}`; the new-item list is exactly the `/c` item. -/
theorem new_item_detection_witness :
    compare_statesE
        (some { specific_page_documents :=
                  some [{ url := some "/a", title := some "Report A" },
                        { url := some "/b", title := some "Report B" }],
                desnz_publications := some [] })
        { specific_page_documents :=
            some [{ url := some "/c", title := some "Report C" },
                  { url := some "/a", title := some "Report A" },
                  { url := some "/b", title := some "Report B" }],
          desnz_publications := some [] } =
      .ok { is_first_run := false,
            new_documents := [{ url := some "/c", title := some "Report C" }],
            new_publications := [], page_updated := some false,
            message := none } :=
  new_item_detection "/a" "/b" "/c"
    { url := some "/a", title := some "Report A" }
    { url := some "/b", title := some "Report B" }
    { url := some "/c", title := some "Report C" }
    [{ url := some "/a", title := some "Report A" },
     { url := some "/b", title := some "Report B" }]
    [{ url := some "/c", title := some "Report C" },
     { url := some "/a", title := some "Report A" },
     { url := some "/b", title := some "Report B" }]
    rfl rfl rfl (by decide) (by decide) (by decide)
    (by decide) (by decide) (by decide)
    (by decide)

/-- C8 (confirmed): a truthy previous state that lacks the
`specific_page_documents` key is diffed with that snapshot treated as the
empty list: no error is raised and the new-documents list is (a
permutation of, since Python iterates the URL set in unspecified order)
the full current document list. -/
theorem missing_snapshot_key_tolerated (prev curr : State)
    (currList : List Item)
    (hmiss : prev.specific_page_documents = none)
    (htr : prev.isTruthy = true)
    (hwfprev : itemsHaveUrl (prev.desnz_publications.getD []) = true)
    (hwfpubs : itemsHaveUrl (curr.desnz_publications.getD []) = true)
    (hcurr : curr.specific_page_documents = some currList)
    (hnd : (currList.map Item.url).Nodup)
    (hwfc : ∀ it ∈ currList, it.url.isSome = true) :
    ∃ ch, compare_statesE (some prev) curr = .ok ch ∧
      ch.new_documents.Perm currList := by
  obtain ⟨pp, hpp⟩ := dictOfItemsAux_isOk _ hwfprev []
  obtain ⟨cp, hcp⟩ := dictOfItemsAux_isOk _ hwfpubs []
  have h1 : dictOfItems (prev.specific_page_documents.getD []) = .ok [] := by
    rw [hmiss]
    rfl
  have h2 : dictOfItems (curr.specific_page_documents.getD []) =
      .ok (assocOf currList) := by
    rw [hcurr]
    exact dictOfItems_assoc currList hnd hwfc
  refine ⟨_, compare_statesE_ok prev curr htr [] (assocOf currList) pp cp
    h1 h2 hpp hcp, ?_⟩
  have hall : newValues [] (assocOf currList) = currList := by
    rw [newValues_assocOf [] currList hnd hwfc]
    rw [List.filter_eq_self]
    intro it _
    simp [dictKeys]
  simp [hall]

/-- Witness for C8: an old-style previous state without the documents key
against a current state with two documents. -/
theorem missing_snapshot_key_tolerated_witness :
    ∃ ch, compare_statesE
        (some { specific_page_title := some "Capacity market",
                desnz_publications := some [{ url := some "/p",
                                              title := some "P" }] })
        { specific_page_documents :=
            some [{ url := some "/a", title := some "A" },
                  { url := some "/b", title := some "B" }],
          desnz_publications := some [{ url := some "/p",
                                        title := some "P" }] } =
      .ok ch ∧
      ch.new_documents.Perm [{ url := some "/a", title := some "A" },
                             { url := some "/b", title := some "B" }] :=
  missing_snapshot_key_tolerated
    { specific_page_title := some "Capacity market",
      desnz_publications := some [{ url := some "/p", title := some "P" }] }
    { specific_page_documents :=
        some [{ url := some "/a", title := some "A" },
              { url := some "/b", title := some "B" }],
      desnz_publications := some [{ url := some "/p", title := some "P" }] }
    [{ url := some "/a", title := some "A" },
     { url := some "/b", title := some "B" }]
    rfl rfl (by decide) (by decide) rfl (by decide) (by decide)

/-- C9 (confirmed): whenever every item on both sides carries the `url`
key, `compare_states` returns a change set and never raises, regardless of
which optional item fields (title, date, description, type, found_on) or
page-level metadata fields (snapshot lists, `specific_page_last_updated`,
title, check time) are missing. -/
theorem differ_total_on_wf (previous : Option State) (current : State)
    (hp : optStateWellFormed previous = true)
    (hc : current.wellFormed = true) :
    ∃ ch, compare_statesE previous current = .ok ch := by
  cases previous with
  | none => exact ⟨_, rfl⟩
  | some prev =>
    cases htr : prev.isTruthy with
    | false =>
      refine ⟨firstRunChanges current, ?_⟩
      simp only [compare_statesE, htr]
      rfl
    | true =>
      simp only [optStateWellFormed, State.wellFormed, Bool.and_eq_true] at hp hc
      obtain ⟨pd, hpd⟩ := dictOfItemsAux_isOk _ hp.1 []
      obtain ⟨cd, hcd⟩ := dictOfItemsAux_isOk _ hc.1 []
      obtain ⟨pp, hpp⟩ := dictOfItemsAux_isOk _ hp.2 []
      obtain ⟨cp, hcp⟩ := dictOfItemsAux_isOk _ hc.2 []
      exact ⟨_, compare_statesE_ok prev current htr pd cd pp cp
        hpd hcd hpp hcp⟩

/-- Witness for C9: sparse states — items carrying only `url`, metadata
keys absent on either side. -/
theorem differ_total_on_wf_witness :
    ∃ ch, compare_statesE
        (some { desnz_publications := some [{ url := some "/p" }],
                check_time := some "t" })
        { specific_page_documents := some [{ url := some "/d" }] } =
      .ok ch :=
  differ_total_on_wf
    (some { desnz_publications := some [{ url := some "/p" }],
            check_time := some "t" })
    { specific_page_documents := some [{ url := some "/d" }] }
    (by decide) (by decide)

end Monitor
